import Mathlib

/-!
Verification of the Assignment & Route Optimization Engine of the `OR`
repository (`assign_locations.py`), against its natural-language
specification.  Python floats are idealised as real numbers; location keys
are strings; Python dicts with `.get` access are modelled as `Option`-valued
functions and records with `Option` fields.
-/

namespace AssignLocations

/-- Embedding of `math.atan2` (the standard two-argument arctangent
convention), used by `haversine`. -/
noncomputable def atan2 (y x : ℝ) : ℝ :=
  if 0 < x then Real.arctan (y / x)
  else if x < 0 ∧ 0 ≤ y then Real.arctan (y / x) + Real.pi
  else if x < 0 ∧ y < 0 then Real.arctan (y / x) - Real.pi
  else if x = 0 ∧ 0 < y then Real.pi / 2
  else if x = 0 ∧ y < 0 then -(Real.pi / 2)
  else 0

/-- Embedding of `math.radians`: degrees to radians. -/
noncomputable def radians (x : ℝ) : ℝ := x * (Real.pi / 180)

/-- Embedding of `haversine(a, b)` from `assign_locations.py`: great-circle
distance in kilometres between two `(lat, lon)` pairs given in degrees. -/
noncomputable def haversine (a b : ℝ × ℝ) : ℝ :=
  let lat1 := radians a.1
  let lon1 := radians a.2
  let lat2 := radians b.1
  let lon2 := radians b.2
  let dlat := lat2 - lat1
  let dlon := lon2 - lon1
  let a_val := Real.sin (dlat / 2) ^ 2 +
    Real.cos lat1 * Real.cos lat2 * Real.sin (dlon / 2) ^ 2
  let c := 2 * atan2 (Real.sqrt a_val) (Real.sqrt (1 - a_val))
  6371.0 * c

/-- Embedding of Python `round(x, 2)` on our idealised reals: round to two
decimal places. -/
noncomputable def round2 (x : ℝ) : ℝ := (round (x * 100) : ℤ) / 100

/-- Auxiliary recursion for `firstDedup`: `seen` is the set of keys already
inserted into the dict. -/
def firstDedupAux (seen : List String) : List String → List String
  | [] => []
  | x :: xs =>
    if x ∈ seen then firstDedupAux seen xs
    else x :: firstDedupAux (x :: seen) xs

/-- The key list of a Python dict built by inserting elements of `l` in
order: duplicates are dropped, keeping the first occurrence.  Used to model
the `coords` dict of `greedy_route_from_coords`. -/
def firstDedup (l : List String) : List String := firstDedupAux [] l

/-- One iteration of the `for n in nodes` scan inside
`greedy_route_from_coords`: replace the current best candidate exactly when
the new node is strictly nearer (`d < ndist`). -/
noncomputable def nearStep (d : String → ℝ) (acc : Option (String × ℝ))
    (n : String) : Option (String × ℝ) :=
  match acc with
  | none => some (n, d n)
  | some (m, dm) => if d n < dm then some (n, d n) else some (m, dm)

/-- The whole `nearest`/`ndist` scan of `greedy_route_from_coords`: a left
fold of `nearStep` starting from `nearest = None`, `ndist = inf`. -/
noncomputable def findNearest (d : String → ℝ) (l : List String) :
    Option (String × ℝ) :=
  l.foldl (nearStep d) none

/-- The `while len(visited) < len(nodes)` loop of
`greedy_route_from_coords`.  `remaining` is the list of unvisited nodes in
scan order; the fuel argument equals `remaining.length` at every call, so
the loop runs until every node is visited, exactly as in the source. -/
noncomputable def greedyLoop (dist : String → String → ℝ) :
    Nat → String → List String → List String → ℝ → List String × ℝ
  | 0, _, _, route, total => (route, total)
  | fuel + 1, current, remaining, route, total =>
    match findNearest (dist current) remaining with
    | none => (route, total)
    | some (n, dn) =>
      greedyLoop dist fuel n (remaining.erase n) (route ++ [n]) (total + dn)

/-- Embedding of `greedy_route_from_coords(locations, depot)`.  The
geocache dict `GEOCACHE` is passed explicitly as `gc`; building the
`coords` dict keeps the first occurrence of each resolvable key
(`firstDedup`), `nodes` is its key list, and the loop is `greedyLoop`. -/
noncomputable def greedy_route_from_coords (gc : String → Option (ℝ × ℝ))
    (locations : List String) (depot : Option String) : List String × ℝ :=
  let nodes := firstDedup (locations.filter (fun l => (gc l).isSome))
  match nodes with
  | [] => ([], 0)
  | n0 :: _ =>
    let coord := fun l => (gc l).getD (0, 0)
    let dist := fun a b => haversine (coord a) (coord b)
    let start := match depot with
      | some d => if d ∈ nodes then d else n0
      | none => n0
    let result :=
      greedyLoop dist (nodes.erase start).length start (nodes.erase start)
        [start] 0
    (result.1, round2 result.2)

/-- An employee record, as read from the employees JSON file.
`problem_occured` is `Option`-valued because `emp.get('problem_occured')`
may return `None`; `availability` defaults to `''` via
`emp.get('availability', '')` and is then coerced with `str`, so it is a
plain string. -/
structure Employee where
  e_id : String
  name : String
  problem_occured : Option String
  availability : String
deriving DecidableEq, Repr

/-- A customer / ticket record: `c.get('location')` and
`c.get('problem_occured')` may be `None`. -/
structure Customer where
  location : Option String
  problem_occured : Option String
deriving DecidableEq, Repr

/-- An assignment record as produced by `assign_locations`. -/
structure Assignment where
  e_id : String
  name : String
  assigned_locations : List String
  problem_occured : Option String
deriving DecidableEq, Repr

/-- Python's `str.isspace` characters that `.strip()` removes (ASCII
whitespace: space, tab, newline, carriage return, vertical tab, form
feed). -/
def pyIsSpace (c : Char) : Bool :=
  c == ' ' || c == '\t' || c == '\n' || c == '\r' ||
    c == Char.ofNat 11 || c == Char.ofNat 12

/-- Python's `str.lower` on a single character (ASCII case folding). -/
def pyLowerChar (c : Char) : Char :=
  if 'A' ≤ c && c ≤ 'Z' then Char.ofNat (c.toNat + 32) else c

/-- Embedding of Python `s.strip().lower()`: drop leading and trailing
whitespace, then lowercase. -/
def pyStripLower (s : String) : String :=
  String.mk ((((s.data.dropWhile pyIsSpace).reverse.dropWhile
    pyIsSpace).reverse).map pyLowerChar)

/-- Python truthiness of the `location` / `problem_occured` fields of a
customer record: `if not loc or not prob: continue` skips the record when
either field is missing (`None`) or an empty string. -/
def customerOk (c : Customer) : Bool :=
  match c.location, c.problem_occured with
  | some l, some p => l ≠ "" && p ≠ ""
  | _, _ => false

/-- The `by_problem` dict of `assign_locations`, read at key `p`: the
locations of all customers whose `problem_occured` equals `p` exactly, in
input order; customers with a falsy location or problem field are
skipped. -/
def by_problem (customers : List Customer) (p : String) : List String :=
  customers.filterMap (fun c =>
    match c.location, c.problem_occured with
    | some l, some q => if l ≠ "" ∧ q ≠ "" ∧ q = p then some l else none
    | _, _ => none)

/-- The availability test of `assign_locations`:
`str(emp.get('availability', '')).strip().lower()` must be one of the
tuple `('yes', '1', 'true', 'available')`. -/
def isAvailable (emp : Employee) : Bool :=
  (["yes", "1", "true", "available"] : List String).contains
    (pyStripLower emp.availability)

/-- Embedding of `assign_locations(employees, customers)`: for each
available employee whose problem category has at least one grouped
location, emit an assignment carrying all of that category's locations. -/
def assign_locations (employees : List Employee)
    (customers : List Customer) : List Assignment :=
  employees.filterMap (fun emp =>
    if isAvailable emp then
      let locs := match emp.problem_occured with
        | some p => by_problem customers p
        | none => []
      if locs ≠ [] then
        some ⟨emp.e_id, emp.name, locs, emp.problem_occured⟩
      else none
    else none)

/-- Python truthiness of an optional string field of the request payload
(`if e_id:` / `elif name:`). -/
def truthyOpt : Option String → Bool
  | none => false
  | some s => s ≠ ""

/-- The employee-selection step shared by the endpoints of
`assign_locations.py`: if `e_id` is truthy, take the first assignment whose
`e_id` equals it exactly (`str(a.get('e_id')) == str(e_id)`); otherwise, if
`name` is truthy, take the first assignment whose name matches after
`.strip().lower()` on both sides; otherwise nothing is selected. -/
def find_assignment (assignments : List Assignment)
    (e_id name : Option String) : Option Assignment :=
  if truthyOpt e_id then
    assignments.find? (fun a => a.e_id == e_id.getD "")
  else if truthyOpt name then
    assignments.find? (fun a =>
      pyStripLower a.name == pyStripLower (name.getD ""))
  else none

/-- The caller-visible outcome of `assign_locations_endpoint` (HTTP
plumbing and the opaque `map_html` artifact abstracted away): a 400 error,
a 404 error, or a 200 payload with the route and distance. -/
inductive EndpointResult where
  | badRequest (error : String)
  | notFound (error : String)
  | ok (e_id name : String) (route : List String) (distance_km : ℝ)

/-- Embedding of `assign_locations_endpoint`: the geocache and the two data
snapshots loaded from disk are explicit arguments; `e_id`, `name` and
`depot` come from the JSON payload. -/
noncomputable def assign_locations_endpoint (gc : String → Option (ℝ × ℝ))
    (employees : List Employee) (customers : List Customer)
    (e_id name depot : Option String) : EndpointResult :=
  if employees.isEmpty then .notFound "No employee data found"
  else if customers.isEmpty then .notFound "No customer data found"
  else if !truthyOpt e_id && !truthyOpt name then
    .badRequest "Provide e_id or name in JSON body"
  else
    match find_assignment (assign_locations employees customers) e_id name with
    | none => .notFound "Employee not found or no assigned locations"
    | some emp =>
      let locs_with_coords :=
        emp.assigned_locations.filter (fun loc => (gc loc).isSome)
      let result := greedy_route_from_coords gc locs_with_coords depot
      .ok emp.e_id emp.name result.1 result.2

/-- Helper for reasoning about the nearest-neighbour scan: a structurally
recursive right-to-left description of the same selection, in which an
earlier element beats a later one exactly on ties. -/
noncomputable def findNearestR (d : String → ℝ) :
    List String → Option (String × ℝ)
  | [] => none
  | x :: xs =>
    match findNearestR d xs with
    | none => some (x, d x)
    | some (m, dm) => if dm < d x then some (m, dm) else some (x, d x)

/-- Written from the spec (§4.4 step 3): "from the current node, scan all
unvisited nodes, ... select the strictly-minimum-distance node (first
minimum wins on ties, since scan order is deterministic)" — the first
element of the list that has minimal distance among all of them. -/
noncomputable def specSelect (d : String → ℝ) (l : List String) :
    Option String :=
  l.find? (fun n => decide (∀ m ∈ l, d n ≤ d m))

/-- Written from the spec (§4.4 step 3): "Repeat until all locations are
visited": repeatedly pick the first-minimum unvisited node, append it, and
accumulate its distance. -/
noncomputable def specLoop (dist : String → String → ℝ) (current : String)
    (remaining : List String) : List String × ℝ :=
  match h : specSelect (dist current) remaining with
  | none => ([], 0)
  | some n =>
    let rest := specLoop dist n (remaining.erase n)
    (n :: rest.1, dist current n + rest.2)
termination_by remaining.length
decreasing_by
  have hm : n ∈ remaining := List.mem_of_find?_eq_some h
  rw [List.length_erase_of_mem hm]
  exact Nat.sub_lt (List.length_pos.mpr (List.ne_nil_of_mem hm)) Nat.one_pos

/-- Written from the spec (§4.4): the route planner as §4.4 describes it.
Start at the depot if it is a resolvable member of the candidate set, else
at the first candidate in the supplied order; then repeat the
first-minimum greedy step until all are visited, and return the route with
the accumulated total rounded to 2 decimals. -/
noncomputable def planRouteSpec (gc : String → Option (ℝ × ℝ))
    (locations : List String) (depot : Option String) : List String × ℝ :=
  let candidates := firstDedup (locations.filter (fun l => (gc l).isSome))
  match candidates with
  | [] => ([], 0)
  | c0 :: _ =>
    let dist := fun a b => haversine ((gc a).getD (0, 0)) ((gc b).getD (0, 0))
    let start := match depot with
      | some d => if d ∈ candidates then d else c0
      | none => c0
    let rest := specLoop dist start (candidates.erase start)
    (start :: rest.1, round2 rest.2)

/-- Written from the spec (amended for claim C2): the locations of all
tickets whose problem category equals the employee's problem category under
exact raw string equality, in ticket order, skipping tickets with falsy
fields. -/
def spec_matching_locations (customers : List Customer) (p : String) :
    List String :=
  (customers.filter (fun c => customerOk c && c.problem_occured == some p)
    ).filterMap (fun c => c.location)

/-! Concrete records used by witnesses and counterexamples. -/

/-- A geocache resolving no location at all. -/
def gcNone : String → Option (ℝ × ℝ) := fun _ => none

/-- A geocache resolving exactly the location `A`. -/
def gcA : String → Option (ℝ × ℝ) :=
  fun l => if l = "A" then some ((0 : ℝ), (0 : ℝ)) else none

/-- An available employee specialised in `leak`. -/
def empW : Employee := ⟨"E1", "Bob", some "leak", "yes"⟩

/-- A ticket at location `A` with problem `leak`. -/
def custW : Customer := ⟨some "A", some "leak"⟩

/-- An employee whose availability field is the token `y`. -/
def empY : Employee := ⟨"E1", "Bob", some "leak", "y"⟩

/-- A ticket with an empty (falsy) location field. -/
def custBad : Customer := ⟨some "", some "leak"⟩

/-- An available employee whose problem category differs from `leak` only
in letter case. -/
def empC2 : Employee := ⟨"E1", "Bob", some "Leak", "yes"⟩

/-- An assignment record with a whitespace-padded name, used to exercise
the lookup interface. -/
def asgW : Assignment := ⟨"E1", " Bob ", ["A"], some "leak"⟩

/-! Laws of `firstDedup`. -/

theorem mem_firstDedupAux {a : String} :
    ∀ {l seen : List String}, a ∈ firstDedupAux seen l ↔ a ∈ l ∧ a ∉ seen := by
  intro l
  induction l with
  | nil => intro seen; simp [firstDedupAux]
  | cons x xs ih =>
    intro seen
    by_cases hx : x ∈ seen
    · rw [firstDedupAux, if_pos hx, ih]
      constructor
      · rintro ⟨h1, h2⟩
        exact ⟨.tail _ h1, h2⟩
      · rintro ⟨h1, h2⟩
        rcases List.mem_cons.mp h1 with rfl | h1
        · exact absurd hx h2
        · exact ⟨h1, h2⟩
    · rw [firstDedupAux, if_neg hx]
      simp only [List.mem_cons, ih, List.mem_cons]
      constructor
      · rintro (rfl | ⟨h1, h2⟩)
        · exact ⟨.inl rfl, hx⟩
        · exact ⟨.inr h1, fun h => h2 (.inr h)⟩
      · rintro ⟨rfl | h1, h2⟩
        · exact .inl rfl
        · by_cases hax : a = x
          · exact .inl hax
          · exact .inr ⟨h1, fun h => by
              rcases h with h | h
              · exact hax h
              · exact h2 h⟩

theorem mem_firstDedup {a : String} {l : List String} :
    a ∈ firstDedup l ↔ a ∈ l := by
  rw [firstDedup, mem_firstDedupAux]
  simp

theorem nodup_firstDedupAux :
    ∀ {l seen : List String}, (firstDedupAux seen l).Nodup := by
  intro l
  induction l with
  | nil => intro seen; simp [firstDedupAux]
  | cons x xs ih =>
    intro seen
    by_cases hx : x ∈ seen
    · rw [firstDedupAux, if_pos hx]; exact ih
    · rw [firstDedupAux, if_neg hx]
      refine List.nodup_cons.mpr ⟨fun hmem => ?_, ih⟩
      exact (mem_firstDedupAux.mp hmem).2 (.head _)

theorem nodup_firstDedup {l : List String} : (firstDedup l).Nodup :=
  nodup_firstDedupAux

theorem firstDedupAux_eq_self :
    ∀ {l seen : List String}, l.Nodup → (∀ a ∈ l, a ∉ seen) →
      firstDedupAux seen l = l := by
  intro l
  induction l with
  | nil => intro seen _ _; rfl
  | cons x xs ih =>
    intro seen hnd hdisj
    rw [firstDedupAux, if_neg (hdisj x (.head _))]
    congr 1
    refine ih (List.nodup_cons.mp hnd).2 fun a ha => ?_
    intro hmem
    rcases List.mem_cons.mp hmem with rfl | hmem
    · exact (List.nodup_cons.mp hnd).1 ha
    · exact hdisj a (.tail _ ha) hmem

theorem firstDedup_eq_self {l : List String} (h : l.Nodup) :
    firstDedup l = l :=
  firstDedupAux_eq_self h (by simp)

/-! Laws of the nearest-neighbour scan. -/

theorem findNearestR_some {d : String → ℝ} :
    ∀ {l : List String} {m : String} {dm : ℝ},
      findNearestR d l = some (m, dm) → dm = d m ∧ m ∈ l := by
  intro l
  induction l with
  | nil => intro m dm h; simp [findNearestR] at h
  | cons x xs ih =>
    intro m dm h
    rw [findNearestR] at h
    cases hx : findNearestR d xs with
    | none =>
      rw [hx] at h
      simp only [Option.some.injEq, Prod.mk.injEq] at h
      obtain ⟨rfl, rfl⟩ := h
      exact ⟨rfl, .head _⟩
    | some p =>
      obtain ⟨n, dn⟩ := p
      rw [hx] at h
      simp only at h
      split at h
      · simp only [Option.some.injEq, Prod.mk.injEq] at h
        obtain ⟨rfl, rfl⟩ := h
        obtain ⟨h1, h2⟩ := ih hx
        exact ⟨h1, .tail _ h2⟩
      · simp only [Option.some.injEq, Prod.mk.injEq] at h
        obtain ⟨rfl, rfl⟩ := h
        exact ⟨rfl, .head _⟩

theorem findNearestR_none {d : String → ℝ} :
    ∀ {l : List String}, findNearestR d l = none → l = [] := by
  intro l h
  cases l with
  | nil => rfl
  | cons x xs =>
    rw [findNearestR] at h
    cases hx : findNearestR d xs with
    | none => rw [hx] at h; simp at h
    | some p =>
      obtain ⟨n, dn⟩ := p
      rw [hx] at h
      simp only at h
      split at h <;> simp at h

theorem foldl_nearStep {d : String → ℝ} :
    ∀ (l : List String) (m : String) (dm : ℝ),
      l.foldl (nearStep d) (some (m, dm)) =
        match findNearestR d l with
        | none => some (m, dm)
        | some (n, dn) => if dn < dm then some (n, dn) else some (m, dm) := by
  intro l
  induction l with
  | nil => intro m dm; simp [findNearestR]
  | cons x xs ih =>
    intro m dm
    rw [List.foldl_cons]
    have hstep : nearStep d (some (m, dm)) x =
        if d x < dm then some (x, d x) else some (m, dm) := rfl
    rw [hstep]
    by_cases hxm : d x < dm
    · rw [if_pos hxm, ih]
      cases hx : findNearestR d xs with
      | none => simp [findNearestR, hx, hxm]
      | some p =>
        obtain ⟨n, dn⟩ := p
        simp only [findNearestR, hx]
        by_cases hnx : dn < d x
        · rw [if_pos hnx]
          have hnm : dn < dm := lt_trans hnx hxm
          simp [hnx, hnm]
        · rw [if_neg hnx]
          simp [hxm]
    · rw [if_neg hxm, ih]
      cases hx : findNearestR d xs with
      | none => simp [findNearestR, hx, hxm]
      | some p =>
        obtain ⟨n, dn⟩ := p
        simp only [findNearestR, hx]
        by_cases hnx : dn < d x
        · simp [hnx]
        · rw [if_neg hnx]
          have hnm : ¬ dn < dm := fun hc =>
            hnx (lt_of_lt_of_le hc (le_of_not_lt hxm))
          simp [hxm, hnm]

theorem findNearest_eq_findNearestR {d : String → ℝ} (l : List String) :
    findNearest d l = findNearestR d l := by
  cases l with
  | nil => rfl
  | cons x xs =>
    show (x :: xs).foldl (nearStep d) none = _
    rw [List.foldl_cons]
    have hstep : nearStep d none x = some (x, d x) := rfl
    rw [hstep, foldl_nearStep]
    cases hx : findNearestR d xs with
    | none => simp [findNearestR, hx]
    | some p =>
      obtain ⟨n, dn⟩ := p
      simp only [findNearestR, hx]

theorem find?_restrict {p q : String → Bool} :
    ∀ {l : List String} {n : String},
      l.find? p = some n → (∀ m, q m = true → p m = true) → q n = true →
      l.find? q = some n := by
  intro l
  induction l with
  | nil => intro n h _ _; simp at h
  | cons x xs ih =>
    intro n h himp hq
    by_cases hp : p x = true
    · rw [List.find?_cons_of_pos _ hp] at h
      obtain rfl : x = n := by simpa using h
      rw [List.find?_cons_of_pos _ hq]
    · rw [List.find?_cons_of_neg _ hp] at h
      have hqx : ¬ q x = true := fun hc => hp (himp x hc)
      rw [List.find?_cons_of_neg _ (by simpa using hqx)]
      exact ih h himp hq

theorem specSelect_min {d : String → ℝ} {l : List String} {n : String}
    (h : specSelect d l = some n) : n ∈ l ∧ ∀ m ∈ l, d n ≤ d m := by
  refine ⟨List.mem_of_find?_eq_some h, ?_⟩
  have := List.find?_some h
  simpa using this

theorem findNearestR_specSelect {d : String → ℝ} :
    ∀ {l : List String}, (findNearestR d l).map Prod.fst = specSelect d l := by
  intro l
  induction l with
  | nil => rfl
  | cons x xs ih =>
    cases hx : findNearestR d xs with
    | none =>
      obtain rfl : xs = [] := findNearestR_none hx
      rw [findNearestR, hx]
      rw [specSelect, List.find?_cons_of_pos _ (by simp)]
      rfl
    | some p =>
      obtain ⟨n, dn⟩ := p
      obtain ⟨rfl, hmem⟩ := findNearestR_some hx
      have hspec : specSelect d xs = some n := by rw [← ih, hx]; rfl
      have hnmin : ∀ m ∈ xs, d n ≤ d m := (specSelect_min hspec).2
      simp only [findNearestR, hx]
      by_cases hcase : d n < d x
      · rw [if_pos hcase]
        have hpredx : ¬ (∀ m ∈ x :: xs, d x ≤ d m) := fun hall =>
          absurd (hall n (.tail _ hmem)) (not_le.mpr hcase)
        rw [specSelect, List.find?_cons_of_neg _ (by simpa using hpredx)]
        have hspec2 : xs.find? (fun m => decide (∀ k ∈ xs, d m ≤ d k)) =
            some n := hspec
        have hrestrict :
            xs.find? (fun m => decide (∀ k ∈ x :: xs, d m ≤ d k)) = some n := by
          refine find?_restrict hspec2 ?_ ?_
          · intro m hm
            simp only [decide_eq_true_eq] at hm ⊢
            intro k hk
            exact hm k (.tail _ hk)
          · simp only [decide_eq_true_eq]
            intro k hk
            rcases List.mem_cons.mp hk with rfl | hk
            · exact le_of_lt hcase
            · exact hnmin k hk
        exact hrestrict.symm ▸ rfl
      · rw [if_neg hcase]
        have hpredx : ∀ m ∈ x :: xs, d x ≤ d m := by
          intro m hm
          rcases List.mem_cons.mp hm with rfl | hm
          · exact le_refl _
          · exact le_trans (le_of_not_lt hcase) (hnmin m hm)
        rw [specSelect, List.find?_cons_of_pos _ (by simpa using hpredx)]
        rfl

theorem findNearest_of_specSelect {d : String → ℝ} {l : List String}
    {n : String} (h : specSelect d l = some n) :
    findNearest d l = some (n, d n) := by
  rw [findNearest_eq_findNearestR]
  cases hx : findNearestR d l with
  | none =>
    obtain rfl : l = [] := findNearestR_none hx
    simp [specSelect] at h
  | some p =>
    obtain ⟨m, dm⟩ := p
    obtain ⟨rfl, _⟩ := findNearestR_some hx
    have : (findNearestR d l).map Prod.fst = some m := by rw [hx]; rfl
    rw [findNearestR_specSelect] at this
    rw [this] at h
    obtain rfl : m = n := by simpa using h
    rfl

theorem specSelect_of_ne_nil (d : String → ℝ) {l : List String}
    (h : l ≠ []) : ∃ n, specSelect d l = some n := by
  cases hx : findNearestR d l with
  | none => exact absurd (findNearestR_none hx) h
  | some p =>
    refine ⟨p.1, ?_⟩
    rw [← findNearestR_specSelect, hx]
    rfl

theorem specSelect_nil {d : String → ℝ} : specSelect d [] = none := rfl

theorem specLoop_of_none {dist : String → String → ℝ} {current : String}
    {remaining : List String}
    (hsel : specSelect (dist current) remaining = none) :
    specLoop dist current remaining = ([], 0) := by
  rw [specLoop]
  split
  · rfl
  · next m heq => rw [hsel] at heq; cases heq

theorem specLoop_of_some {dist : String → String → ℝ} {current : String}
    {remaining : List String} {n : String}
    (hsel : specSelect (dist current) remaining = some n) :
    specLoop dist current remaining =
      (n :: (specLoop dist n (remaining.erase n)).1,
        dist current n + (specLoop dist n (remaining.erase n)).2) := by
  rw [specLoop]
  split
  · next heq => rw [hsel] at heq; cases heq
  · next m heq =>
    rw [hsel] at heq
    obtain rfl : m = n := by injection heq with h; exact h.symm
    rfl

theorem greedyLoop_eq_specLoop (dist : String → String → ℝ) :
    ∀ (fuel : Nat) (current : String) (remaining route : List String)
      (total : ℝ), remaining.length = fuel →
      greedyLoop dist fuel current remaining route total =
        (route ++ (specLoop dist current remaining).1,
          total + (specLoop dist current remaining).2) := by
  intro fuel
  induction fuel with
  | zero =>
    intro current remaining route total hlen
    obtain rfl : remaining = [] := List.length_eq_zero.mp hlen
    rw [specLoop_of_none specSelect_nil]
    simp [greedyLoop]
  | succ fuel ih =>
    intro current remaining route total hlen
    have hne : remaining ≠ [] := by
      intro hc; rw [hc] at hlen; simp at hlen
    obtain ⟨n, hsel⟩ := specSelect_of_ne_nil (dist current) hne
    have hFN : findNearest (dist current) remaining = some (n, dist current n) :=
      findNearest_of_specSelect hsel
    have hmem : n ∈ remaining := List.mem_of_find?_eq_some hsel
    have hlen' : (remaining.erase n).length = fuel := by
      rw [List.length_erase_of_mem hmem, hlen]
      rfl
    rw [greedyLoop, hFN]
    dsimp only
    rw [ih n (remaining.erase n) (route ++ [n]) (total + dist current n) hlen']
    rw [specLoop_of_some hsel]
    rw [Prod.mk.injEq]
    constructor
    · simp
    · dsimp only
      ring

theorem greedyLoop_fst_perm (dist : String → String → ℝ) :
    ∀ (fuel : Nat) (current : String) (remaining route : List String)
      (total : ℝ), remaining.length = fuel →
      (greedyLoop dist fuel current remaining route total).1.Perm
        (route ++ remaining) := by
  intro fuel
  induction fuel with
  | zero =>
    intro current remaining route total hlen
    obtain rfl : remaining = [] := List.length_eq_zero.mp hlen
    simp [greedyLoop]
  | succ fuel ih =>
    intro current remaining route total hlen
    have hne : remaining ≠ [] := by
      intro hc; rw [hc] at hlen; simp at hlen
    obtain ⟨n, hsel⟩ := specSelect_of_ne_nil (dist current) hne
    have hFN : findNearest (dist current) remaining = some (n, dist current n) :=
      findNearest_of_specSelect hsel
    have hmem : n ∈ remaining := List.mem_of_find?_eq_some hsel
    have hlen' : (remaining.erase n).length = fuel := by
      rw [List.length_erase_of_mem hmem, hlen]
      rfl
    rw [greedyLoop, hFN]
    dsimp only
    have hstep := ih n (remaining.erase n) (route ++ [n])
      (total + dist current n) hlen'
    refine hstep.trans ?_
    have hrem : (n :: remaining.erase n).Perm remaining :=
      (List.perm_cons_erase hmem).symm
    have hassoc : (route ++ [n]) ++ remaining.erase n
        = route ++ (n :: remaining.erase n) := by simp
    rw [hassoc]
    exact hrem.append_left route

theorem greedyLoop_route_perm_start {dist : String → String → ℝ}
    {nodes : List String} {start : String} (hmem : start ∈ nodes) :
    (greedyLoop dist (nodes.erase start).length start (nodes.erase start)
      [start] 0).1.Perm nodes := by
  have hperm := greedyLoop_fst_perm dist (nodes.erase start).length start
    (nodes.erase start) [start] 0 rfl
  refine hperm.trans ?_
  have hsa : ([start] ++ nodes.erase start) = start :: nodes.erase start := by
    simp
  rw [hsa]
  exact (List.perm_cons_erase hmem).symm

theorem greedy_route_fst_perm (gc : String → Option (ℝ × ℝ))
    (locations : List String) (depot : Option String) :
    (greedy_route_from_coords gc locations depot).1.Perm
      (firstDedup (locations.filter fun l => (gc l).isSome)) := by
  simp only [greedy_route_from_coords]
  cases hn : firstDedup (locations.filter fun l => (gc l).isSome) with
  | nil => simp
  | cons c0 rest =>
    dsimp only
    cases depot with
    | none => exact greedyLoop_route_perm_start (List.mem_cons_self c0 rest)
    | some d =>
      by_cases hd : d ∈ c0 :: rest
      · simp only [if_pos hd]
        exact greedyLoop_route_perm_start hd
      · simp only [if_neg hd]
        exact greedyLoop_route_perm_start (List.mem_cons_self c0 rest)

theorem haversine_comm (a b : ℝ × ℝ) : haversine a b = haversine b a := by
  simp only [haversine]
  have hA : Real.sin ((radians b.1 - radians a.1) / 2) ^ 2 +
      Real.cos (radians a.1) * Real.cos (radians b.1) *
        Real.sin ((radians b.2 - radians a.2) / 2) ^ 2 =
      Real.sin ((radians a.1 - radians b.1) / 2) ^ 2 +
      Real.cos (radians b.1) * Real.cos (radians a.1) *
        Real.sin ((radians a.2 - radians b.2) / 2) ^ 2 := by
    have e1 : Real.sin ((radians b.1 - radians a.1) / 2) ^ 2 =
        Real.sin ((radians a.1 - radians b.1) / 2) ^ 2 := by
      rw [show (radians b.1 - radians a.1) / 2 =
        -((radians a.1 - radians b.1) / 2) by ring, Real.sin_neg]
      ring
    have e2 : Real.sin ((radians b.2 - radians a.2) / 2) ^ 2 =
        Real.sin ((radians a.2 - radians b.2) / 2) ^ 2 := by
      rw [show (radians b.2 - radians a.2) / 2 =
        -((radians a.2 - radians b.2) / 2) by ring, Real.sin_neg]
      ring
    rw [e1, e2]
    ring
  rw [hA]

theorem haversine_self (a : ℝ × ℝ) : haversine a a = 0 := by
  simp only [haversine, atan2]
  norm_num

theorem round2_zero : round2 0 = 0 := by
  simp [round2]

theorem greedy_route_nil (gc : String → Option (ℝ × ℝ))
    (depot : Option String) :
    greedy_route_from_coords gc [] depot = ([], 0) := rfl

theorem greedy_route_singleton (gc : String → Option (ℝ × ℝ)) (l : String)
    (depot : Option String) (h : (gc l).isSome = true) :
    greedy_route_from_coords gc [l] depot = ([l], 0) := by
  simp only [greedy_route_from_coords]
  have hfilter : ([l].filter fun x => (gc x).isSome) = [l] := by simp [h]
  rw [hfilter]
  have hfd : firstDedup [l] = [l] := rfl
  rw [hfd]
  dsimp only
  cases depot with
  | none => simp [greedyLoop, round2]
  | some d =>
    by_cases hd : d ∈ [l]
    · obtain rfl : d = l := by simpa using hd
      simp [hd, greedyLoop, round2]
    · simp [hd, greedyLoop, round2]

/-! Laws of the assignment engine. -/

theorem by_problem_eq_spec (customers : List Customer) (p : String) :
    by_problem customers p = spec_matching_locations customers p := by
  induction customers with
  | nil => rfl
  | cons c cs ih =>
    simp only [by_problem, spec_matching_locations, List.filterMap_cons,
      List.filter_cons] at ih ⊢
    obtain ⟨cl, cp⟩ := c
    cases cl with
    | none => cases cp <;> simp [customerOk, ih]
    | some l =>
      cases cp with
      | none => simp [customerOk, ih]
      | some q =>
        dsimp only
        by_cases hcond : l ≠ "" ∧ q ≠ "" ∧ q = p
        · have hpredb : (customerOk ⟨some l, some q⟩ &&
              ((some q : Option String) == some p)) = true := by
            obtain ⟨h1, h2, rfl⟩ := hcond
            simp [customerOk, h1, h2]
          rw [if_pos hcond, if_pos hpredb, List.filterMap_cons]
          dsimp only
          rw [ih]
        · have hpredb : (customerOk ⟨some l, some q⟩ &&
              ((some q : Option String) == some p)) = false := by
            cases hB : (customerOk ⟨some l, some q⟩ &&
                ((some q : Option String) == some p)) with
            | false => rfl
            | true =>
              simp [customerOk] at hB
              exact absurd ⟨hB.1.1, hB.1.2, hB.2⟩ hcond
          rw [if_neg hcond, if_neg (by rw [hpredb]; simp)]
          dsimp only
          exact ih

theorem by_problem_filter (customers : List Customer) (p : String) :
    by_problem (customers.filter customerOk) p = by_problem customers p := by
  induction customers with
  | nil => rfl
  | cons c cs ih =>
    rw [List.filter_cons]
    by_cases hc : customerOk c = true
    · rw [if_pos hc]
      simp only [by_problem, List.filterMap_cons] at ih ⊢
      rw [ih]
    · rw [if_neg (by simpa using hc)]
      simp only [by_problem, List.filterMap_cons] at ih ⊢
      rw [ih]
      obtain ⟨cl, cp⟩ := c
      cases cl with
      | none => rfl
      | some l =>
        cases cp with
        | none => rfl
        | some q =>
          simp only [customerOk] at hc
          have : ¬ (l ≠ "" ∧ q ≠ "" ∧ q = p) := by
            rintro ⟨hl, hq, -⟩
            exact hc (by simp [hl, hq])
          simp only [if_neg this]

theorem mem_by_problem {customers : List Customer} {p l : String}
    (h : l ∈ by_problem customers p) :
    ∃ c ∈ customers, customerOk c = true ∧ c.location = some l ∧
      c.problem_occured = some p := by
  rw [by_problem] at h
  obtain ⟨c, hc, hfc⟩ := List.mem_filterMap.mp h
  obtain ⟨cl, cp⟩ := c
  cases cl with
  | none => simp at hfc
  | some lw =>
    cases cp with
    | none => simp at hfc
    | some q =>
      dsimp only at hfc
      split_ifs at hfc with hcond
      · obtain ⟨h1, h2, h3⟩ := hcond
        have heq : lw = l := by simpa using hfc
        exact ⟨⟨some lw, some q⟩, hc, by simp [customerOk, h1, h2],
          by rw [heq], by rw [h3]⟩

theorem mem_assign_locations {employees : List Employee}
    {customers : List Customer} {a : Assignment}
    (h : a ∈ assign_locations employees customers) :
    ∃ emp ∈ employees, isAvailable emp = true ∧ ∃ p,
      emp.problem_occured = some p ∧ by_problem customers p ≠ [] ∧
      a = ⟨emp.e_id, emp.name, by_problem customers p, some p⟩ := by
  rw [assign_locations] at h
  obtain ⟨emp, hmem, hf⟩ := List.mem_filterMap.mp h
  by_cases hav : isAvailable emp = true
  · rw [if_pos hav] at hf
    dsimp only at hf
    cases hp : emp.problem_occured with
    | none =>
      rw [hp] at hf
      simp at hf
    | some p =>
      rw [hp] at hf
      dsimp only at hf
      split_ifs at hf with hne
      · obtain rfl : _ = a := by simpa using hf
        exact ⟨emp, hmem, hav, p, hp, hne, rfl⟩
  · rw [if_neg hav] at hf
    simp at hf

theorem assign_locations_mem_of {employees : List Employee}
    {customers : List Customer} {emp : Employee} {p : String}
    (hmem : emp ∈ employees) (hav : isAvailable emp = true)
    (hp : emp.problem_occured = some p)
    (hne : by_problem customers p ≠ []) :
    (⟨emp.e_id, emp.name, by_problem customers p, some p⟩ : Assignment) ∈
      assign_locations employees customers := by
  rw [assign_locations]
  refine List.mem_filterMap.mpr ⟨emp, hmem, ?_⟩
  rw [if_pos hav]
  dsimp only
  rw [hp]
  dsimp only
  rw [if_pos hne]

theorem find?_congr {p q : Assignment → Bool} (h : ∀ a, p a = q a) :
    ∀ l : List Assignment, l.find? p = l.find? q := by
  intro l
  induction l with
  | nil => rfl
  | cons x xs ih => rw [List.find?_cons, List.find?_cons, h x, ih]

/-! The claim theorems. -/

/-- Claim C10: at the public lookup interface, selecting an assignment by
name compares names case-insensitively after trimming whitespace on both
sides, selecting by `e_id` compares the string forms for exact equality
(no trimming or case folding), and when both `e_id` and `name` are
supplied only `e_id` is used. -/
theorem lookup_interface_semantics :
    (∀ (assignments : List Assignment) (eid : String) (nm : Option String),
      eid ≠ "" →
      find_assignment assignments (some eid) nm =
        find_assignment assignments (some eid) none) ∧
    (∀ (assignments : List Assignment) (eid : String) (a : Assignment),
      find_assignment assignments (some eid) none = some a →
      a.e_id = eid) ∧
    (∀ (assignments : List Assignment) (nm nm' : String),
      nm ≠ "" → nm' ≠ "" → pyStripLower nm = pyStripLower nm' →
      find_assignment assignments none (some nm) =
        find_assignment assignments none (some nm')) ∧
    (∀ (assignments : List Assignment) (nm : String) (a : Assignment),
      find_assignment assignments none (some nm) = some a →
      pyStripLower a.name = pyStripLower nm) := by
  refine ⟨?_, ?_, ?_, ?_⟩
  · intro asg eid nm h
    have ht : truthyOpt (some eid) = true := by simp [truthyOpt, h]
    rw [find_assignment, find_assignment, if_pos ht, if_pos ht]
  · intro asg eid a h
    by_cases ht : truthyOpt (some eid) = true
    · rw [find_assignment, if_pos ht] at h
      have := List.find?_some h
      simpa using this
    · rw [find_assignment, if_neg ht, if_neg (by simp [truthyOpt])] at h
      cases h
  · intro asg nm nm' h1 h2 heq
    have ht1 : truthyOpt (some nm) = true := by simp [truthyOpt, h1]
    have ht2 : truthyOpt (some nm') = true := by simp [truthyOpt, h2]
    rw [find_assignment, find_assignment, if_neg (by simp [truthyOpt]),
      if_pos ht1, if_neg (by simp [truthyOpt]), if_pos ht2]
    apply find?_congr
    intro a
    dsimp only [Option.getD_some]
    rw [heq]
  · intro asg nm a h
    by_cases ht : truthyOpt (some nm) = true
    · rw [find_assignment, if_neg (by simp [truthyOpt]), if_pos ht] at h
      have := List.find?_some h
      simpa using this
    · rw [find_assignment, if_neg (by simp [truthyOpt]), if_neg ht] at h
      cases h

/-- Witness for C10 on concrete data: with the single assignment `asgW`
(`e_id = "E1"`, `name = " Bob "`), supplying both selectors uses only the
id, lookup by id returns an exact id match, and name lookup is insensitive
to case and padding. -/
theorem lookup_interface_semantics_witness :
    find_assignment [asgW] (some "E1") (some "ZZZ") =
      find_assignment [asgW] (some "E1") none ∧
    asgW.e_id = "E1" ∧
    find_assignment [asgW] none (some "BOB") =
      find_assignment [asgW] none (some "bob") ∧
    pyStripLower asgW.name = pyStripLower "bob" :=
  ⟨lookup_interface_semantics.1 [asgW] "E1" (some "ZZZ") (by decide),
    lookup_interface_semantics.2.1 [asgW] "E1" asgW (by decide),
    lookup_interface_semantics.2.2.1 [asgW] "BOB" "bob" (by decide)
      (by decide) (by decide),
    lookup_interface_semantics.2.2.2 [asgW] "bob" asgW (by decide)⟩

/-- Claim C2, counterexample: employee `empC2` (problem category `Leak`)
is available and ticket `custW` has category `leak`, which matches
case-insensitively after trimming, yet `assign_locations` emits no
assignment at all — the code groups and looks up categories by exact raw
string equality. -/
theorem assign_matching_counterexample :
    isAvailable empC2 = true ∧
    pyStripLower "Leak" = pyStripLower "leak" ∧
    empC2.problem_occured = some "Leak" ∧
    custW.problem_occured = some "leak" ∧
    assign_locations [empC2] [custW] = [] :=
  ⟨by decide, by decide, rfl, rfl, by decide⟩

/-- Claim C2 (amended): for every employee list and ticket list, `assign`
emits, for each available employee, an assignment carrying exactly the
locations of all (well-formed) tickets whose problem category equals the
employee's problem category under EXACT raw string equality. -/
theorem assign_emits_exact_match_assignment
    (employees : List Employee) (customers : List Customer)
    (emp : Employee) (p : String) (hmem : emp ∈ employees)
    (hav : isAvailable emp = true) (hp : emp.problem_occured = some p)
    (hne : spec_matching_locations customers p ≠ []) :
    (⟨emp.e_id, emp.name, spec_matching_locations customers p, some p⟩ :
      Assignment) ∈ assign_locations employees customers := by
  rw [← by_problem_eq_spec] at hne ⊢
  exact assign_locations_mem_of hmem hav hp hne

/-- Witness for C2 (amended) on concrete data: the available employee
`empW` (category `leak`) receives an assignment with exactly the
exact-match ticket locations. -/
theorem assign_emits_exact_match_assignment_witness :
    (⟨"E1", "Bob", spec_matching_locations [custW] "leak", some "leak"⟩ :
      Assignment) ∈ assign_locations [empW] [custW] :=
  assign_emits_exact_match_assignment [empW] [custW] empW "leak"
    (by decide) (by decide) rfl (by decide)

/-- Claim C3, counterexample: the truthy token tuple in the code is
`('yes', '1', 'true', 'available')` and lacks `y`: employee `empY` with
availability `"y"` and a matching ticket is excluded from the output. -/
theorem availability_y_counterexample :
    pyStripLower empY.availability = "y" ∧
    isAvailable empY = false ∧
    assign_locations [empY] [custW] = [] :=
  ⟨by decide, by decide, by decide⟩

/-- Claim C3 (amended): `assign` treats an employee as available iff its
availability field, after trimming and lowercasing, is one of
{yes, true, 1, available} (`y` is NOT accepted); an employee with
availability `"No"` is excluded from the output regardless of matching
tickets. -/
theorem availability_token_semantics :
    (∀ (emp : Employee) (customers : List Customer),
      assign_locations [emp] customers ≠ [] ↔
        (pyStripLower emp.availability ∈
            (["yes", "1", "true", "available"] : List String) ∧
          ∃ p, emp.problem_occured = some p ∧
            spec_matching_locations customers p ≠ [])) ∧
    (∀ (id nm : String) (p : Option String) (customers : List Customer),
      assign_locations [⟨id, nm, p, "No"⟩] customers = []) := by
  constructor
  · intro emp customers
    constructor
    · intro hne
      obtain ⟨a, ha⟩ : ∃ a, a ∈ assign_locations [emp] customers := by
        cases h : assign_locations [emp] customers with
        | nil => exact absurd h hne
        | cons x xs => exact ⟨x, h ▸ List.mem_cons_self x xs⟩
      obtain ⟨emp', hmem', hav', p, hp', hne', rfl⟩ := mem_assign_locations ha
      obtain rfl : emp' = emp := by simpa using hmem'
      refine ⟨?_, p, hp', ?_⟩
      · simpa [isAvailable] using hav'
      · rwa [by_problem_eq_spec] at hne'
    · rintro ⟨havmem, p, hp, hne⟩
      have hav : isAvailable emp = true := by simpa [isAvailable] using havmem
      have hbp : by_problem customers p ≠ [] := by
        rwa [by_problem_eq_spec]
      intro hcon
      have hin := assign_locations_mem_of
        (List.mem_cons_self emp []) hav hp hbp
      rw [hcon] at hin
      cases hin
  · intro id nm p customers
    have hfalse : isAvailable ⟨id, nm, p, "No"⟩ = false := rfl
    simp [assign_locations, hfalse]

/-- Witness for C3 (amended) on concrete data: the availability iff at
employee `empW` with ticket `custW`, and the `"No"` exclusion scenario. -/
theorem availability_token_semantics_witness :
    (assign_locations [empW] [custW] ≠ [] ↔
      (pyStripLower empW.availability ∈
          (["yes", "1", "true", "available"] : List String) ∧
        ∃ p, empW.problem_occured = some p ∧
          spec_matching_locations [custW] p ≠ [])) ∧
    assign_locations [⟨"E9", "Zoe", some "leak", "No"⟩] [custW] = [] :=
  ⟨availability_token_semantics.1 empW [custW],
    availability_token_semantics.2 "E9" "Zoe" (some "leak") [custW]⟩

/-- Claim C9: tickets whose location or problem-category field is missing
or falsy are silently skipped when grouping: removing them changes nothing,
and every assigned location stems from a well-formed ticket. -/
theorem falsy_tickets_skipped :
    (∀ (employees : List Employee) (customers : List Customer),
      assign_locations employees (customers.filter customerOk) =
        assign_locations employees customers) ∧
    (∀ (employees : List Employee) (customers : List Customer)
      (a : Assignment), a ∈ assign_locations employees customers →
      ∀ l ∈ a.assigned_locations, ∃ c ∈ customers,
        customerOk c = true ∧ c.location = some l) := by
  constructor
  · intro employees customers
    simp only [assign_locations, by_problem_filter]
  · intro employees customers a ha l hl
    obtain ⟨emp, hmem, hav, p, hp, hne, rfl⟩ := mem_assign_locations ha
    obtain ⟨c, hc, hok, hcl, hcp⟩ := mem_by_problem (by simpa using hl)
    exact ⟨c, hc, hok, hcl⟩

/-- Witness for C9 on concrete data: the ticket `custBad` with an empty
location is skipped (filtering it away is a no-op), and the one assigned
location `A` stems from the well-formed ticket `custW`. -/
theorem falsy_tickets_skipped_witness :
    assign_locations [empW] ([custW, custBad].filter customerOk) =
      assign_locations [empW] [custW, custBad] ∧
    ∃ c ∈ [custW, custBad], customerOk c = true ∧ c.location = some "A" :=
  ⟨falsy_tickets_skipped.1 [empW] [custW, custBad],
    falsy_tickets_skipped.2 [empW] [custW, custBad]
      ⟨"E1", "Bob", ["A"], some "leak"⟩ (by decide) "A" (by decide)⟩

/-- Claim C4, counterexample: the `coords` dict deduplicates location keys,
so with the fully resolvable duplicate list `["A", "A"]` the route has
length 1, not the input count 2. -/
theorem route_length_duplicates_counterexample :
    (∀ l ∈ (["A", "A"] : List String), (gcA l).isSome = true) ∧
    (greedy_route_from_coords gcA ["A", "A"] none).1.length ≠
      (["A", "A"] : List String).length :=
  ⟨by decide, by decide⟩

/-- Claim C4 (amended): the route length equals the input location count
when all locations resolve in the geocache AND the input list has no
duplicate keys; duplicate keys are collapsed, not kept. -/
theorem route_length_eq_input_of_nodup (gc : String → Option (ℝ × ℝ))
    (locations : List String) (depot : Option String)
    (hnd : locations.Nodup)
    (hres : ∀ l ∈ locations, (gc l).isSome = true) :
    (greedy_route_from_coords gc locations depot).1.length =
      locations.length := by
  have hperm := greedy_route_fst_perm gc locations depot
  rw [List.filter_eq_self.mpr hres, firstDedup_eq_self hnd] at hperm
  exact hperm.length_eq

/-- Witness for C4 (amended): a duplicate-free resolvable input of length
one yields a route of length one. -/
theorem route_length_eq_input_of_nodup_witness :
    (greedy_route_from_coords gcA ["A"] none).1.length =
      (["A"] : List String).length :=
  route_length_eq_input_of_nodup gcA ["A"] none (by decide) (by decide)

/-- Claim C5: the route never revisits a location and never contains a
location absent from the geocache; and for every duplicate-free input list
whose members all resolve, the route is a permutation of the input. -/
theorem route_invariants (gc : String → Option (ℝ × ℝ))
    (locations : List String) (depot : Option String) :
    ((greedy_route_from_coords gc locations depot).1.Nodup ∧
      ∀ l ∈ (greedy_route_from_coords gc locations depot).1,
        (gc l).isSome = true) ∧
    (locations.Nodup → (∀ l ∈ locations, (gc l).isSome = true) →
      (greedy_route_from_coords gc locations depot).1.Perm locations) := by
  have hperm := greedy_route_fst_perm gc locations depot
  refine ⟨⟨?_, ?_⟩, ?_⟩
  · exact hperm.nodup_iff.mpr nodup_firstDedup
  · intro l hl
    have hmem := hperm.subset hl
    have := mem_firstDedup.mp hmem
    exact (List.mem_filter.mp this).2
  · intro hnd hres
    rwa [List.filter_eq_self.mpr hres, firstDedup_eq_self hnd] at hperm

/-- Witness for C5: at the duplicate-free resolvable input `["A"]` the
route is duplicate-free, fully resolvable and a permutation of the
input. -/
theorem route_invariants_witness :
    ((greedy_route_from_coords gcA ["A"] none).1.Nodup ∧
      ∀ l ∈ (greedy_route_from_coords gcA ["A"] none).1,
        (gcA l).isSome = true) ∧
    (greedy_route_from_coords gcA ["A"] none).1.Perm ["A"] :=
  ⟨(route_invariants gcA ["A"] none).1,
    (route_invariants gcA ["A"] none).2 (by decide) (by decide)⟩

/-- Claim C6: the route planner implements exactly the algorithm of §4.4 of
the spec — start at the depot when it is a resolvable member of the
candidate set, else at the first candidate in the supplied order; then
repeatedly append the unvisited node at strictly minimum haversine
distance from the current node, first minimum winning ties in scan order,
accumulating each chosen distance; return the total rounded to 2
decimals. -/
theorem planner_refines_spec (gc : String → Option (ℝ × ℝ))
    (locations : List String) (depot : Option String) :
    greedy_route_from_coords gc locations depot =
      planRouteSpec gc locations depot := by
  simp only [greedy_route_from_coords, planRouteSpec]
  cases hn : firstDedup (locations.filter fun l => (gc l).isSome) with
  | nil => rfl
  | cons c0 rest =>
    dsimp only
    rw [greedyLoop_eq_specLoop _ _ _ _ _ _ rfl]
    simp

/-- Witness for C6 at a concrete input. -/
theorem planner_refines_spec_witness :
    greedy_route_from_coords gcA ["A"] none = planRouteSpec gcA ["A"] none :=
  planner_refines_spec gcA ["A"] none

/-- Claim C7, counterexample: `distanceKm` is zero for two distinct
well-formed coordinate pairs — both poles: latitude 90 with different
longitudes.  "Zero iff identical" fails. -/
theorem haversine_zero_distinct_counterexample :
    (((90 : ℝ), (0 : ℝ)) : ℝ × ℝ) ≠ ((90 : ℝ), (10 : ℝ)) ∧
    (-90 ≤ (90 : ℝ) ∧ (90 : ℝ) ≤ 90 ∧
      -180 ≤ (0 : ℝ) ∧ (0 : ℝ) ≤ 180 ∧ -180 ≤ (10 : ℝ) ∧ (10 : ℝ) ≤ 180) ∧
    haversine (90, 0) (90, 10) = 0 := by
  refine ⟨by norm_num [Prod.ext_iff], by norm_num, ?_⟩
  simp only [haversine, atan2]
  have h90 : radians 90 = Real.pi / 2 := by
    simp only [radians]; ring
  norm_num [h90, Real.cos_pi_div_two]

/-- Claim C7 (amended): the distance function is symmetric and zero at
identical pairs; the converse ("zero only at identical points") does not
hold. -/
theorem haversine_symm_and_self :
    (∀ a b : ℝ × ℝ, haversine a b = haversine b a) ∧
    (∀ a : ℝ × ℝ, haversine a a = 0) :=
  ⟨haversine_comm, haversine_self⟩

/-- Claim C8: `planRoute` on the empty list returns the empty route with
distance 0 for every depot, and on a single resolvable location returns
exactly that location with distance 0. -/
theorem planner_boundary :
    (∀ (gc : String → Option (ℝ × ℝ)) (depot : Option String),
      greedy_route_from_coords gc [] depot = ([], 0)) ∧
    (∀ (gc : String → Option (ℝ × ℝ)) (l : String) (depot : Option String),
      (gc l).isSome = true →
      greedy_route_from_coords gc [l] depot = ([l], 0)) :=
  ⟨greedy_route_nil, greedy_route_singleton⟩

/-- Witness for C8 at concrete inputs. -/
theorem planner_boundary_witness :
    greedy_route_from_coords gcA [] none = ([], 0) ∧
    greedy_route_from_coords gcA ["A"] (some "B") = (["A"], 0) :=
  ⟨planner_boundary.1 gcA none,
    planner_boundary.2 gcA "A" (some "B") (by decide)⟩

/-- Claim C1: when a requested employee id belongs to an assignment whose
assigned locations are all unroutable (absent from the geocache), the
endpoint returns a success payload with an empty route — visibly distinct
from the 404 "not found" answer returned for an id present in no
assignment. -/
theorem endpoint_distinguishes_empty_route_from_not_found
    (gc : String → Option (ℝ × ℝ)) (employees : List Employee)
    (customers : List Customer) (eidF eidM : String) (depot : Option String)
    (hemp : employees ≠ []) (hcust : customers ≠ [])
    (hF : eidF ≠ "") (hM : eidM ≠ "")
    (hfound : ∃ a ∈ assign_locations employees customers, a.e_id = eidF)
    (hnone : ∀ a ∈ assign_locations employees customers, a.e_id ≠ eidM)
    (hnoroute : ∀ a ∈ assign_locations employees customers,
      a.e_id = eidF → ∀ l ∈ a.assigned_locations, gc l = none) :
    (∃ nm, assign_locations_endpoint gc employees customers
        (some eidF) none depot = .ok eidF nm [] 0) ∧
    assign_locations_endpoint gc employees customers (some eidM) none depot =
      .notFound "Employee not found or no assigned locations" ∧
    assign_locations_endpoint gc employees customers (some eidF) none depot ≠
      assign_locations_endpoint gc employees customers
        (some eidM) none depot := by
  have hempB : employees.isEmpty = false := by
    cases employees with
    | nil => exact absurd rfl hemp
    | cons x xs => rfl
  have hcustB : customers.isEmpty = false := by
    cases customers with
    | nil => exact absurd rfl hcust
    | cons x xs => rfl
  have htF : truthyOpt (some eidF) = true := by simp [truthyOpt, hF]
  have htM : truthyOpt (some eidM) = true := by simp [truthyOpt, hM]
  obtain ⟨a0, ha0mem, ha0eid⟩ := hfound
  have hsome : (List.find? (fun a => a.e_id == eidF)
      (assign_locations employees customers)).isSome = true := by
    rw [List.find?_isSome]
    exact ⟨a0, ha0mem, by simp [ha0eid]⟩
  obtain ⟨aF, hfind⟩ := Option.isSome_iff_exists.mp hsome
  have haFmem : aF ∈ assign_locations employees customers :=
    List.mem_of_find?_eq_some hfind
  have haFeid : aF.e_id = eidF := by
    have := List.find?_some hfind
    simpa using this
  have hfaF : find_assignment (assign_locations employees customers)
      (some eidF) none = some aF := by
    rw [find_assignment, if_pos htF]
    exact hfind
  have hfaM : find_assignment (assign_locations employees customers)
      (some eidM) none = none := by
    rw [find_assignment, if_pos htM]
    rw [List.find?_eq_none]
    intro a ha
    simp [hnone a ha]
  have hfilter : aF.assigned_locations.filter (fun loc => (gc loc).isSome)
      = [] := by
    rw [List.filter_eq_nil_iff]
    intro l hl
    simp [hnoroute aF haFmem haFeid l hl]
  have hmainF : assign_locations_endpoint gc employees customers
      (some eidF) none depot = .ok aF.e_id aF.name [] 0 := by
    rw [assign_locations_endpoint, if_neg (by simp [hempB]),
      if_neg (by simp [hcustB]), if_neg (by simp [htF]), hfaF]
    dsimp only
    rw [hfilter, greedy_route_nil]
  have hmainM : assign_locations_endpoint gc employees customers
      (some eidM) none depot =
      .notFound "Employee not found or no assigned locations" := by
    rw [assign_locations_endpoint, if_neg (by simp [hempB]),
      if_neg (by simp [hcustB]), if_neg (by simp [htM]), hfaM]
  refine ⟨⟨aF.name, by rw [hmainF, haFeid]⟩, hmainM, ?_⟩
  rw [hmainF, hmainM]
  intro hc
  cases hc

/-- Witness for C1 on concrete data: with a geocache resolving nothing,
employee `E1` qualifies for an assignment (location `A`, category `leak`)
that is entirely unroutable, while id `E2` is in no assignment; the
endpoint answers a success with an empty route for `E1` and the 404 error
for `E2`, and the two answers differ. -/
theorem endpoint_distinguishes_empty_route_from_not_found_witness :
    (∃ nm, assign_locations_endpoint gcNone [empW] [custW]
        (some "E1") none none = .ok "E1" nm [] 0) ∧
    assign_locations_endpoint gcNone [empW] [custW] (some "E2") none none =
      .notFound "Employee not found or no assigned locations" ∧
    assign_locations_endpoint gcNone [empW] [custW] (some "E1") none none ≠
      assign_locations_endpoint gcNone [empW] [custW] (some "E2") none none :=
  endpoint_distinguishes_empty_route_from_not_found gcNone [empW] [custW]
    "E1" "E2" none (by decide) (by decide) (by decide) (by decide)
    ⟨⟨"E1", "Bob", ["A"], some "leak"⟩, by decide, rfl⟩
    (by decide) (fun a _ _ l _ => rfl)

end AssignLocations
